import Mathlib

/-!
Verification of the anemoi-datasets creation core against its specification.

The development shallowly embeds the relevant parts of
`src/anemoi/datasets/create/loaders.py`,
`src/anemoi/datasets/create/persistent.py` and
`src/src/anemoi/datasets/data/masked.py`:
pure computations become Lean functions, the stateful build loop becomes an
explicit state-passing function that also emits a trace of events, fallible
code returns `Except`, and numpy float arrays become lists of rationals with
`Option` marking NaN entries.
-/

/-! ## Content-addressed partial store (`persistent.py`, `PersistentDict`) -/

/-- A `PersistentDict` directory: a list of (file name, stored pickle) pairs,
where each pickle holds the pair `(key, value)` as written by
`PersistentDict.__setitem__` (`pickle.dump((key, elt), f)`). -/
structure PDict (K V : Type) where
  entries : List (String × K × V)
deriving DecidableEq

/-- Writing a file at a path: `shutil.move(tmp_path, path)` atomically replaces
any existing file at `path`, otherwise appends a new directory entry. -/
def upsertFile {K V : Type} (name : String) (kv : K × V) :
    List (String × K × V) → List (String × K × V)
  | [] => [(name, kv)]
  | e :: rest => if e.1 = name then (name, kv) :: rest else e :: upsertFile name kv rest

/-- `PersistentDict.__setitem__`: the file name is the hex digest of the
cryptographic hash of `str(key)` (the hash itself, `hashlib.sha256(...)
.hexdigest()`, is external to the repository and passed in as `sha256hex`).
If the path already exists only a warning is logged (`LOG.warn`), returned
here as the Boolean component; the write then proceeds and replaces the file.
-/
def PDict.setitem {K V : Type} (sha256hex : String → String) (strOfKey : K → String)
    (d : PDict K V) (key : K) (elt : V) : PDict K V × Bool :=
  let path := sha256hex (strOfKey key)
  let collided := d.entries.any (fun e => e.1 = path)
  (⟨upsertFile path (key, elt) d.entries⟩, collided)

/-- `PersistentDict.items`: yields each stored pickle, i.e. each `(key, value)`
pair, one per file in the directory. -/
def PDict.items {K V : Type} (d : PDict K V) : List (K × V) :=
  d.entries.map (fun e => e.2)

/-! ## `allow_nan` (`loaders.py`, `StatisticsAdder` and `GenericAdditionsLoader`) -/

/-- `StatisticsAdder.allow_nan`: if the attribute `variables_with_nans` is
present in the store, membership in it decides; otherwise a warning is emitted
and `True` is returned.  The attribute is `none` when absent. -/
def statisticsAdder_allow_nan (variables_with_nans : Option (List String))
    (name : String) : Bool :=
  match variables_with_nans with
  | some l => name ∈ l
  | none => true

/-- `GenericAdditionsLoader.allow_nan`: `_variables_with_nans` is the attribute
when present and `None` otherwise; if it is not `None`, membership decides,
otherwise a warning is emitted and `True` is returned. -/
def genericAdditions_allow_nan (variables_with_nans : Option (List String))
    (name : String) : Bool :=
  match variables_with_nans with
  | some l => name ∈ l
  | none => true

/-! ## Masked views (`masked.py`) -/

/-- The forward dataset of a `Masked` view: its shape and grid coordinates. -/
structure ForwardDS where
  shape : List Nat
  latitudes : List ℚ
  longitudes : List ℚ
deriving DecidableEq

/-- Numpy boolean-mask indexing `xs[mask]` (both of equal length). -/
def boolIndex {α : Type} (xs : List α) (mask : List Bool) : List α :=
  ((xs.zip mask).filter (fun p => p.2)).map (fun p => p.1)

/-- `np.count_nonzero(mask)` for a boolean mask. -/
def countNonzero (mask : List Bool) : Nat := mask.count true

/-- `Masked.shape`: `forward.shape[:-1] + (np.count_nonzero(mask),)`. -/
def Masked.shape (fwd : ForwardDS) (mask : List Bool) : List Nat :=
  fwd.shape.dropLast ++ [countNonzero mask]

/-- `Masked.latitudes`: `forward.latitudes[mask]`. -/
def Masked.latitudes (fwd : ForwardDS) (mask : List Bool) : List ℚ :=
  boolIndex fwd.latitudes mask

/-- `Masked.longitudes`: `forward.longitudes[mask]`. -/
def Masked.longitudes (fwd : ForwardDS) (mask : List Bool) : List ℚ :=
  boolIndex fwd.longitudes mask

lemma boolIndex_length {α : Type} :
    ∀ (mask : List Bool) (xs : List α), xs.length = mask.length →
      (boolIndex xs mask).length = countNonzero mask := by
  intro mask
  induction mask with
  | nil =>
      intro xs h
      cases xs with
      | nil => simp [boolIndex, countNonzero]
      | cons a as => simp at h
  | cons b bs ih =>
      intro xs h
      cases xs with
      | nil => simp at h
      | cons a as =>
          simp only [List.length_cons, Nat.succ.injEq] at h
          cases b with
          | false =>
              simp [boolIndex, countNonzero, List.count_cons] at ih ⊢
              exact ih as h
          | true =>
              simp [boolIndex, countNonzero, List.count_cons] at ih ⊢
              exact ih as h

/-! ## Thinning (`masked.py`, class `Thinning`) -/

/-- A constructed `Thinning` view: forward dataset, the `thinning` and `method`
constructor arguments, and the computed mask (`None` when `thinning` is
`None`). -/
structure ThinningView where
  forward : ForwardDS
  thinning : Option Nat
  method : String
  mask : Option (List Bool)
deriving DecidableEq

/-- Reshape a flat coordinate array to `shape` rows (`arr.reshape(shape)`),
row-major: row `r` holds elements `r*y .. r*y+y-1`. -/
def reshape2 (xs : List ℚ) (y : Nat) : List (List ℚ) :=
  if y = 0 then [] else
    (List.range ((xs.length + y - 1) / y)).map (fun r => (xs.drop (r * y)).take y)

/-- Python extended slice `l[::t]` for `t ≥ 1`: every `t`-th element. -/
def everyNth {α : Type} (t : Nat) (l : List α) : List α :=
  (l.enum.filter (fun p => p.1 % t = 0)).map (fun p => p.2)

/-- The mask computed by `Thinning.__init__` for `thinning = t`: reshape the
forward latitudes and longitudes to the field shape, keep every `t`-th row and
column, flatten, and mark each forward grid point whose latitude is among the
kept latitudes and whose longitude is among the kept longitudes. -/
def thinningMask (fwd : ForwardDS) (fieldShape : List Nat) (t : Nat) : List Bool :=
  let y := fieldShape.getD 1 0
  let lats := (everyNth t (reshape2 fwd.latitudes y)).map (everyNth t) |>.flatten
  let lons := (everyNth t (reshape2 fwd.longitudes y)).map (everyNth t) |>.flatten
  (fwd.latitudes.zip fwd.longitudes).map (fun p => decide (p.1 ∈ lats ∧ p.2 ∈ lons))

/-- `Thinning.__init__`: with `thinning=None` no mask is computed and the view
keeps `mask = None`; with `thinning = t` the field shape must have length 2
(else `ValueError`), `t = 0` is a zero slice step (`ValueError`), and otherwise
the thinning mask is computed. -/
def mkThinning (fwd : ForwardDS) (fieldShape : List Nat) (thinning : Option Nat)
    (method : String) : Except String ThinningView :=
  match thinning with
  | none => .ok ⟨fwd, none, method, none⟩
  | some t =>
      if fieldShape.length ≠ 2 then
        .error "Thinning only works latitude/longitude fields"
      else if t = 0 then
        .error "slice step cannot be zero"
      else
        .ok ⟨fwd, some t, method, some (thinningMask fwd fieldShape t)⟩

/-- The result of `Dataset.mutate()`: either the forward dataset itself (the
view disappeared) or the masked view. -/
inductive MutateResult where
  | forwardDataset (fwd : ForwardDS)
  | maskedView (v : ThinningView)
deriving DecidableEq

/-- `Thinning.mutate`: with `thinning=None` return `forward.mutate()` (the
forward dataset), otherwise keep the view. -/
def ThinningView.mutate (v : ThinningView) : MutateResult :=
  match v.thinning with
  | none => .forwardDataset v.forward
  | some _ => .maskedView v

/-- Where reads are served from after `mutate()`: the latitudes exposed by the
resulting dataset. -/
def MutateResult.datasetLatitudes : MutateResult → List ℚ
  | .forwardDataset f => f.latitudes
  | .maskedView v => boolIndex v.forward.latitudes (v.mask.getD [])

/-! ## The build loop (`loaders.py`, `ContentLoader.load` / `load_result`)

The loop is embedded as a state-transition function that additionally emits a
trace of the externally visible actions, in the order the code performs them.
The external input provider (`self.input.select`) is a fixed function
`content` of the group index (the claims assume no external state change), and
the chunk filter (`self.chunk_filter`) is an abstract ownership predicate. -/

/-- Externally visible actions of `ContentLoader.load` and `load_result`. -/
inductive Event where
  | historyStart
  | historyEnd
  | select (i : Nat)
  | stage (i : Nat)
  | computeStats (i : Nat)
  | writeTmpStats (i : Nat)
  | flush (i : Nat)
  | setFlag (i : Nat)
  | skipped (i : Nat)
deriving DecidableEq

/-- The state shared through the dataset store: the registry completion flags
and the contents of the `data` array, here per group region (`none` =
never written). -/
structure BuildState (δ : Type) where
  flags : Nat → Bool
  data : Nat → Option δ

/-- The trace of one processed group, in source order: `self.input.select`
(`load`), staging through the `ViewCacheArray` (`load_cube`),
`compute_statistics`, `self.tmp_statistics.write`, `array.flush()`
(all in `load_result`), then `self.registry.set_flag(igroup)` (`load`). -/
def groupEvents (i : Nat) : List Event :=
  [.select i, .stage i, .computeStats i, .writeTmpStats i, .flush i, .setFlag i]

/-- The state effect of processing one group: the group's region of the data
array is written by the flush and the group's flag is set. -/
def processGroup {δ : Type} (content : Nat → δ) (i : Nat) (st : BuildState δ) :
    BuildState δ :=
  ⟨fun j => if j = i then true else st.flags j,
   fun j => if j = i then some (content i) else st.data j⟩

/-- The loop body of `ContentLoader.load` over a list of group indices:
groups not owned by this worker are passed over, already-flagged owned groups
are skipped with a log note, and remaining groups are processed and flagged. -/
def loadRun {δ : Type} (content : Nat → δ) (owned : Nat → Bool) :
    List Nat → BuildState δ → BuildState δ × List Event
  | [], st => (st, [])
  | i :: rest, st =>
      if owned i then
        if st.flags i then
          ((loadRun content owned rest st).1,
            Event.skipped i :: (loadRun content owned rest st).2)
        else
          ((loadRun content owned rest (processGroup content i st)).1,
            groupEvents i ++ (loadRun content owned rest (processGroup content i st)).2)
      else loadRun content owned rest st

/-- `ContentLoader.load` over `n` groups: the history marker
`loading_data_start`, the group loop, then `loading_data_end`. -/
def contentLoad {δ : Type} (content : Nat → δ) (owned : Nat → Bool) (n : Nat)
    (st : BuildState δ) : BuildState δ × List Event :=
  ((loadRun content owned (List.range n) st).1,
    Event.historyStart :: (loadRun content owned (List.range n) st).2 ++ [Event.historyEnd])

/-- `beforeAll a b tr`: along the trace `tr`, an occurrence of `a` comes
strictly before any occurrence of `b` (vacuously true when `b` never occurs).
-/
def beforeAll {α : Type} [DecidableEq α] (a b : α) : List α → Bool
  | [] => true
  | x :: xs => if x = b then false else if x = a then true else beforeAll a b xs

lemma beforeAll_of_not_mem {α : Type} [DecidableEq α] {a b : α} :
    ∀ {l : List α}, b ∉ l → beforeAll a b l = true := by
  intro l
  induction l with
  | nil => intro; rfl
  | cons x xs ih =>
      intro h
      simp only [List.mem_cons, not_or] at h
      by_cases hxa : x = a
      · subst hxa; simp [beforeAll, Ne.symm h.1]
      · simp [beforeAll, Ne.symm h.1, hxa, ih h.2]

lemma beforeAll_append {α : Type} [DecidableEq α] {a b : α} :
    ∀ {l₁ l₂ : List α}, beforeAll a b l₁ = true → beforeAll a b l₂ = true →
      beforeAll a b (l₁ ++ l₂) = true := by
  intro l₁
  induction l₁ with
  | nil => intro l₂ _ h₂; simpa using h₂
  | cons x xs ih =>
      intro l₂ h₁ h₂
      by_cases hxb : x = b
      · simp [beforeAll, hxb] at h₁
      · by_cases hxa : x = a
        · subst hxa; simp [beforeAll, hxb]
        · simp only [beforeAll, hxb, hxa, if_false, if_true] at h₁
          simp [beforeAll, hxb, hxa]
          exact ih h₁ h₂

lemma beforeAll_groupEvents (i : Nat) :
    beforeAll (Event.flush i) (Event.setFlag i) (groupEvents i) = true := by
  simp [groupEvents, beforeAll]

lemma setFlag_not_mem_groupEvents {i j : Nat} (h : j ≠ i) :
    Event.setFlag i ∉ groupEvents j := by
  simp [groupEvents]
  exact fun hc => h hc.symm

lemma beforeAll_loadRun {δ : Type} (content : Nat → δ) (owned : Nat → Bool)
    (i : Nat) :
    ∀ (l : List Nat) (st : BuildState δ),
      beforeAll (Event.flush i) (Event.setFlag i) (loadRun content owned l st).2 = true := by
  intro l
  induction l with
  | nil => intro st; rfl
  | cons j rest ih =>
      intro st
      by_cases ho : owned j
      · by_cases hf : st.flags j
        · have hcons : (loadRun content owned (j :: rest) st).2 =
              Event.skipped j :: (loadRun content owned rest st).2 := by
            simp [loadRun, ho, hf]
          rw [hcons]
          have h1 : Event.skipped j ≠ Event.setFlag i := by simp
          have h2 : Event.skipped j ≠ Event.flush i := by simp
          simp only [beforeAll, h1, h2, if_false]
          exact ih st
        · have hcons : (loadRun content owned (j :: rest) st).2 =
              groupEvents j ++ (loadRun content owned rest (processGroup content j st)).2 := by
            simp [loadRun, ho, hf]
          rw [hcons]
          apply beforeAll_append
          · by_cases hji : j = i
            · subst hji; exact beforeAll_groupEvents j
            · exact beforeAll_of_not_mem (setFlag_not_mem_groupEvents hji)
          · exact ih _
      · have hsame : (loadRun content owned (j :: rest) st).2 =
            (loadRun content owned rest st).2 := by
          simp [loadRun, ho]
        rw [hsame]
        exact ih st

lemma loadRun_flags_mono {δ : Type} (content : Nat → δ) (owned : Nat → Bool)
    (i : Nat) :
    ∀ (l : List Nat) (st : BuildState δ), st.flags i = true →
      ((loadRun content owned l st).1).flags i = true := by
  intro l
  induction l with
  | nil => intro st h; simpa [loadRun] using h
  | cons j rest ih =>
      intro st h
      by_cases ho : owned j
      · by_cases hf : st.flags j
        · simpa [loadRun, ho, hf] using ih st h
        · have hpg : (processGroup content j st).flags i = true := by
            simp only [processGroup]
            by_cases hij : i = j <;> simp [hij, h]
          simpa [loadRun, ho, hf] using ih _ hpg
      · simpa [loadRun, ho] using ih st h

lemma loadRun_flags_complete {δ : Type} (content : Nat → δ) (owned : Nat → Bool)
    (i : Nat) :
    ∀ (l : List Nat) (st : BuildState δ), i ∈ l → owned i = true →
      ((loadRun content owned l st).1).flags i = true := by
  intro l
  induction l with
  | nil => intro st h; simp at h
  | cons j rest ih =>
      intro st hmem how
      rcases List.mem_cons.1 hmem with hij | hmemr
      · subst hij
        by_cases hf : st.flags i
        · simpa [loadRun, how, hf] using loadRun_flags_mono content owned i rest st hf
        · have hpg : (processGroup content i st).flags i = true := by
            simp [processGroup]
          simpa [loadRun, how, hf] using loadRun_flags_mono content owned i rest _ hpg
      · by_cases ho : owned j
        · by_cases hf : st.flags j
          · simpa [loadRun, ho, hf] using ih st hmemr how
          · simpa [loadRun, ho, hf] using ih _ hmemr how
        · simpa [loadRun, ho] using ih st hmemr how

lemma loadRun_noop {δ : Type} (content : Nat → δ) (owned : Nat → Bool) :
    ∀ (l : List Nat) (st : BuildState δ),
      (∀ i ∈ l, owned i = true → st.flags i = true) →
      (loadRun content owned l st).1 = st ∧
        ∀ e ∈ (loadRun content owned l st).2, ∃ j, e = Event.skipped j := by
  intro l
  induction l with
  | nil => intro st _; simp [loadRun]
  | cons j rest ih =>
      intro st h
      have hrest : ∀ i ∈ rest, owned i = true → st.flags i = true :=
        fun i hi => h i (List.mem_cons_of_mem j hi)
      by_cases ho : owned j
      · have hf : st.flags j = true := h j (List.mem_cons_self j rest) ho
        refine ⟨by simpa [loadRun, ho, hf] using (ih st hrest).1, ?_⟩
        intro e he
        simp only [loadRun, ho, hf, if_true, List.mem_cons] at he
        rcases he with he | he
        · exact ⟨j, he⟩
        · exact (ih st hrest).2 e he
      · refine ⟨by simpa [loadRun, ho] using (ih st hrest).1, ?_⟩
        intro e he
        simp only [loadRun, ho, if_false] at he
        exact (ih st hrest).2 e he

lemma loadRun_skipped {δ : Type} (content : Nat → δ) (owned : Nat → Bool)
    (i : Nat) :
    ∀ (l : List Nat) (st : BuildState δ), i ∈ l → owned i = true →
      st.flags i = true → Event.skipped i ∈ (loadRun content owned l st).2 := by
  intro l
  induction l with
  | nil => intro st h; simp at h
  | cons j rest ih =>
      intro st hmem how hf
      rcases List.mem_cons.1 hmem with hij | hmemr
      · subst hij
        simp [loadRun, how, hf]
      · by_cases ho : owned j
        · by_cases hfj : st.flags j
          · simp only [loadRun, ho, hfj, if_true, List.mem_cons]
            exact Or.inr (ih st hmemr how hf)
          · have hpg : (processGroup content j st).flags i = true := by
              simp only [processGroup]
              by_cases hij : i = j <;> simp [hij, hf]
            have htr : (loadRun content owned (j :: rest) st).2 =
                groupEvents j ++ (loadRun content owned rest (processGroup content j st)).2 := by
              simp [loadRun, ho, hfj]
            rw [htr]
            exact List.mem_append_right _ (ih _ hmemr how hpg)
        · simpa [loadRun, ho] using ih st hmemr how hf

/-- Claim C1: in `ContentLoader.load`, for every group, `set_flag(igroup)` is
never executed before `array.flush()` has completed for that group's data:
along the emitted trace, `flush i` occurs strictly before `setFlag i`. -/
theorem claim_C1_flush_before_set_flag (δ : Type) (content : Nat → δ)
    (owned : Nat → Bool) (n : Nat) (st : BuildState δ) (i : Nat) :
    beforeAll (Event.flush i) (Event.setFlag i) (contentLoad content owned n st).2 = true := by
  have h1 : (Event.historyStart : Event) ≠ Event.setFlag i := by simp
  have h2 : (Event.historyStart : Event) ≠ Event.flush i := by simp
  simp only [contentLoad, beforeAll, h1, h2, if_false]
  apply beforeAll_append
  · exact beforeAll_loadRun content owned i (List.range n) st
  · apply beforeAll_of_not_mem
    simp

/-- Claim C6: running `ContentLoader.load` a second time over the same owned
units with no external state change is idempotent: every already-flagged owned
group is skipped, the second run performs no writes to the data array and
leaves the completion flags unchanged, and its trace consists of the history
markers and skip notes only. -/
theorem claim_C6_second_run_idempotent (δ : Type) (content : Nat → δ)
    (owned : Nat → Bool) (n : Nat) (st : BuildState δ) :
    (contentLoad content owned n (contentLoad content owned n st).1).1 =
        (contentLoad content owned n st).1 ∧
      (∀ e ∈ (contentLoad content owned n (contentLoad content owned n st).1).2,
        e = Event.historyStart ∨ e = Event.historyEnd ∨ ∃ j, e = Event.skipped j) ∧
      ∀ i < n, owned i = true →
        Event.skipped i ∈ (contentLoad content owned n (contentLoad content owned n st).1).2 := by
  have hall : ∀ i ∈ List.range n, owned i = true →
      ((contentLoad content owned n st).1).flags i = true := by
    intro i hi how
    exact loadRun_flags_complete content owned i (List.range n) st hi how
  have hnoop := loadRun_noop content owned (List.range n) (contentLoad content owned n st).1 hall
  have htr : (contentLoad content owned n (contentLoad content owned n st).1).2 =
      Event.historyStart ::
        (loadRun content owned (List.range n) (contentLoad content owned n st).1).2 ++
        [Event.historyEnd] := rfl
  refine ⟨?_, ?_, ?_⟩
  · simpa [contentLoad] using hnoop.1
  · intro e he
    rw [htr] at he
    rcases List.mem_cons.1 he with he | he
    · exact Or.inl he
    · rcases List.mem_append.1 he with he | he
      · exact Or.inr (Or.inr (hnoop.2 e he))
      · exact Or.inr (Or.inl (List.mem_singleton.1 he))
  · intro i hi how
    have hmem : i ∈ List.range n := List.mem_range.2 hi
    have hf : ((contentLoad content owned n st).1).flags i = true := hall i hmem how
    rw [htr]
    exact List.mem_cons_of_mem _
      (List.mem_append_left _ (loadRun_skipped content owned i (List.range n) _ hmem how hf))

/-! ## Claim theorems for the partial store, allow_nan and the masked views -/

/-- Claim C7: `PersistentDict.__setitem__` stores the pair under the file name
given by the hash of the string form of the key; a second write of the same
key does not fail (the collision is only reported as a warning, the Boolean
component) and the last write wins: `items()` afterwards yields the second
value only. -/
theorem claim_C7_setitem_last_write_wins (K V : Type)
    (sha256hex : String → String) (strOfKey : K → String) (k : K) (v1 v2 : V) :
    (PDict.setitem sha256hex strOfKey ⟨[]⟩ k v1).2 = false ∧
      (PDict.setitem sha256hex strOfKey ⟨[]⟩ k v1).1.entries =
        [(sha256hex (strOfKey k), (k, v1))] ∧
      (PDict.setitem sha256hex strOfKey
          (PDict.setitem sha256hex strOfKey ⟨[]⟩ k v1).1 k v2).2 = true ∧
      (PDict.setitem sha256hex strOfKey
          (PDict.setitem sha256hex strOfKey ⟨[]⟩ k v1).1 k v2).1.entries =
        [(sha256hex (strOfKey k), (k, v2))] ∧
      (PDict.setitem sha256hex strOfKey
          (PDict.setitem sha256hex strOfKey ⟨[]⟩ k v1).1 k v2).1.items =
        [(k, v2)] := by
  simp [PDict.setitem, upsertFile, PDict.items]

/-- Claim C8: when the dataset attributes hold no `variables_with_nans` entry,
both `StatisticsAdder.allow_nan` and `GenericAdditionsLoader.allow_nan` return
`True` for every variable; when the entry is present, they return `True`
exactly for the members of the list. -/
theorem claim_C8_allow_nan_default_true (name : String) (l : List String) :
    statisticsAdder_allow_nan none name = true ∧
      genericAdditions_allow_nan none name = true ∧
      statisticsAdder_allow_nan (some l) name = decide (name ∈ l) ∧
      genericAdditions_allow_nan (some l) name = decide (name ∈ l) := by
  constructor
  · rfl
  · constructor
    · rfl
    · constructor <;> rfl

/-- Claim C9: for a `Masked` view over a 4-dimensional forward dataset whose
mask length matches the grid size, the view's shape is the forward shape with
the last axis replaced by the number of `True` mask entries, and the view's
latitudes and longitudes are the forward's filtered by the mask, their lengths
equal to that last axis. -/
theorem claim_C9_masked_shape_and_coords (fwd : ForwardDS) (mask : List Bool)
    (hdim : fwd.shape.length = 4)
    (hlat : fwd.latitudes.length = mask.length)
    (hlon : fwd.longitudes.length = mask.length) :
    Masked.shape fwd mask = fwd.shape.dropLast ++ [countNonzero mask] ∧
      (Masked.shape fwd mask).length = 4 ∧
      Masked.latitudes fwd mask = boolIndex fwd.latitudes mask ∧
      Masked.longitudes fwd mask = boolIndex fwd.longitudes mask ∧
      (Masked.latitudes fwd mask).length = countNonzero mask ∧
      (Masked.longitudes fwd mask).length = countNonzero mask ∧
      (Masked.shape fwd mask).getLast? = some ((Masked.latitudes fwd mask).length) := by
  have hl : (Masked.latitudes fwd mask).length = countNonzero mask :=
    boolIndex_length mask fwd.latitudes hlat
  have hg : (Masked.longitudes fwd mask).length = countNonzero mask :=
    boolIndex_length mask fwd.longitudes hlon
  refine ⟨rfl, ?_, rfl, rfl, hl, hg, ?_⟩
  · simp [Masked.shape, List.length_dropLast, hdim]
  · rw [hl]
    simp [Masked.shape]

/-- Witness for claim C9 at a concrete 4-dimensional dataset and mask. -/
theorem claim_C9_witness :
    ((ForwardDS.mk [5, 3, 2, 4] [1, 2, 3, 4] [10, 20, 30, 40]).shape.length = 4 ∧
        (ForwardDS.mk [5, 3, 2, 4] [1, 2, 3, 4] [10, 20, 30, 40]).latitudes.length =
          [true, false, true, true].length ∧
        (ForwardDS.mk [5, 3, 2, 4] [1, 2, 3, 4] [10, 20, 30, 40]).longitudes.length =
          [true, false, true, true].length) ∧
      Masked.shape (ForwardDS.mk [5, 3, 2, 4] [1, 2, 3, 4] [10, 20, 30, 40])
          [true, false, true, true] =
        (ForwardDS.mk [5, 3, 2, 4] [1, 2, 3, 4] [10, 20, 30, 40]).shape.dropLast ++
          [countNonzero [true, false, true, true]] ∧
      (Masked.shape (ForwardDS.mk [5, 3, 2, 4] [1, 2, 3, 4] [10, 20, 30, 40])
          [true, false, true, true]).length = 4 ∧
      Masked.latitudes (ForwardDS.mk [5, 3, 2, 4] [1, 2, 3, 4] [10, 20, 30, 40])
          [true, false, true, true] =
        boolIndex (ForwardDS.mk [5, 3, 2, 4] [1, 2, 3, 4] [10, 20, 30, 40]).latitudes
          [true, false, true, true] ∧
      Masked.longitudes (ForwardDS.mk [5, 3, 2, 4] [1, 2, 3, 4] [10, 20, 30, 40])
          [true, false, true, true] =
        boolIndex (ForwardDS.mk [5, 3, 2, 4] [1, 2, 3, 4] [10, 20, 30, 40]).longitudes
          [true, false, true, true] ∧
      (Masked.latitudes (ForwardDS.mk [5, 3, 2, 4] [1, 2, 3, 4] [10, 20, 30, 40])
          [true, false, true, true]).length = countNonzero [true, false, true, true] ∧
      (Masked.longitudes (ForwardDS.mk [5, 3, 2, 4] [1, 2, 3, 4] [10, 20, 30, 40])
          [true, false, true, true]).length = countNonzero [true, false, true, true] ∧
      (Masked.shape (ForwardDS.mk [5, 3, 2, 4] [1, 2, 3, 4] [10, 20, 30, 40])
          [true, false, true, true]).getLast? =
        some ((Masked.latitudes (ForwardDS.mk [5, 3, 2, 4] [1, 2, 3, 4] [10, 20, 30, 40])
          [true, false, true, true]).length) :=
  ⟨⟨by decide, by decide, by decide⟩,
    claim_C9_masked_shape_and_coords
      (ForwardDS.mk [5, 3, 2, 4] [1, 2, 3, 4] [10, 20, 30, 40])
      [true, false, true, true] (by decide) (by decide) (by decide)⟩

/-- Claim C10: constructing `Thinning` with `thinning=None` yields a view with
no mask, and `Thinning.mutate()` returns `forward.mutate()`: the thinning view
disappears and reads are served by the unmodified forward dataset. -/
theorem claim_C10_thinning_none_identity (fwd : ForwardDS) (fieldShape : List Nat)
    (method : String) :
    mkThinning fwd fieldShape none method = .ok ⟨fwd, none, method, none⟩ ∧
      (ThinningView.mk fwd none method none).mask = none ∧
      (ThinningView.mk fwd none method none).mutate = .forwardDataset fwd ∧
      ((ThinningView.mk fwd none method none).mutate).datasetLatitudes =
        fwd.latitudes := by
  refine ⟨rfl, rfl, rfl, rfl⟩

/-! ## Completion-registry precondition (`StatisticsAdder.write_stats_to_dataset`) -/

/-- Modelled from the spec: the Completion Registry (`ZarrBuiltRegistry`,
defined in `create/zarr.py`, which is not under `src/`).  Per spec section 4.2
it holds a per-group boolean completion array; `get_flags(sync=bool)` returns
the whole array, re-reading from durable storage first when `sync=True`, and
the possibly stale cached view when `sync=False`. -/
structure Registry where
  cached : List Bool
  durable : List Bool
deriving DecidableEq

/-- Modelled from the spec: `get_flags(sync)` of the Completion Registry. -/
def Registry.get_flags (r : Registry) (sync : Bool) : List Bool :=
  if sync then r.durable else r.cached

/-- The eight statistics arrays added by `write_stats_to_dataset`. -/
def statsArrayNames : List String :=
  ["mean", "stdev", "minimum", "maximum", "sums", "squares", "count", "has_nans"]

/-- `Except.isOk` as a plain Boolean. -/
def isOkE {ε α : Type} : Except ε α → Bool
  | .ok _ => true
  | .error _ => false

/-- `StatisticsAdder.write_stats_to_dataset`: raises if user statistics dates
were specified; raises if `all(self.registry.get_flags(sync=False))` fails,
adding no arrays; otherwise adds the eight statistics arrays.  The `stats`
argument maps each statistics key to its array. -/
def write_stats_to_dataset {σ : Type} (r : Registry) (userStart userEnd : Option ℤ)
    (stats : String → σ) : Except String (List (String × σ)) :=
  if userStart.isSome || userEnd.isSome then
    .error "Cannot write statistics in dataset with user specified dates."
  else if ¬ ((r.get_flags false).all (fun b => b)) then
    .error "zarr is not fully built, not writting statistics into dataset"
  else
    .ok (statsArrayNames.map (fun k => (k, stats k)))

/-- Counterexample to claim C3 as stated: with cached flags all true but the
durable (re-synced) flags containing a false, `write_stats_to_dataset`
succeeds even though the registry re-synced from durable storage does not
report all flags true — the code checks `get_flags(sync=False)`, not the
re-synced flags. -/
theorem claim_C3_counterexample :
    isOkE (write_stats_to_dataset (Registry.mk [true] [false]) none none
        (fun _ => (0 : ℚ))) = true ∧
      ((Registry.mk [true] [false]).get_flags true).all (fun b => b) = false := by
  constructor
  · rfl
  · rfl

/-- Claim C3 (amended): `write_stats_to_dataset` succeeds exactly when no user
statistics dates are given and all flags of the registry's cached,
non-re-synced view (`get_flags(sync=False)`) are true; otherwise it fails
fatally and no statistics arrays are added. -/
theorem claim_C3_write_precondition_cached_flags (σ : Type) (r : Registry)
    (userStart userEnd : Option ℤ) (stats : String → σ) :
    isOkE (write_stats_to_dataset r userStart userEnd stats) =
      (userStart.isNone && userEnd.isNone && (r.get_flags false).all (fun b => b)) := by
  cases userStart with
  | some us => rfl
  | none =>
      cases userEnd with
      | some ue => rfl
      | none =>
          by_cases h : (r.get_flags false).all (fun b => b)
          · simp [write_stats_to_dataset, isOkE, h]
          · simp [write_stats_to_dataset, isOkE, h]

/-! ## Statistics target dates (`StatisticsAdder._get_statistics_dates`) -/

/-- Modelled from the spec: `as_first_date` (`data/misc.py`, not under
`src/`) resolves a caller-specified lower bound against the date axis; the
caller's bound is modelled as already being a date and is returned as the
limit itself. -/
def as_first_date_model (b : ℤ) (_axis : List ℤ) : ℤ := b

/-- Modelled from the spec: `as_last_date` (`data/misc.py`, not under `src/`)
resolves a caller-specified upper bound against the date axis; modelled as the
bound itself. -/
def as_last_date_model (b : ℤ) (_axis : List ℤ) : ℤ := b

/-- `StatisticsAdder._get_statistics_dates` as the code performs it: remove
dataset-level missing dates, keep dates within the dataset statistics
start/end attributes, then apply the user-specified bounds.  The user
end-date branch calls `as_last_date(self.user_statistics_start, dates)` —
it resolves the limit from `user_statistics_start`.  When only
`user_statistics_end` is set, that branch hands `None` to the resolver,
modelled as a failure (`none`). -/
def getStatisticsDates (dates missing : List ℤ) (metaStart metaEnd : ℤ)
    (userStart userEnd : Option ℤ) : Option (List ℤ) :=
  let d1 := dates.filter (fun d => decide (d ∉ missing))
  let d2 := d1.filter (fun d => decide (metaStart ≤ d ∧ d ≤ metaEnd))
  let d3 := match userStart with
    | some us => d2.filter (fun d => decide (as_first_date_model us d2 ≤ d))
    | none => d2
  match userEnd with
  | none => some d3
  | some _ =>
      match userStart with
      | some us => some (d3.filter (fun d => decide (d ≤ as_last_date_model us d3)))
      | none => none

/-- Modelled from the spec: the intended `_get_statistics_dates`, identical to
`getStatisticsDates` except that the user end-date filter resolves its limit
from the user-specified end date (`user_statistics_end`), as the claim
states. -/
def getStatisticsDatesSpec (dates missing : List ℤ) (metaStart metaEnd : ℤ)
    (userStart userEnd : Option ℤ) : Option (List ℤ) :=
  let d1 := dates.filter (fun d => decide (d ∉ missing))
  let d2 := d1.filter (fun d => decide (metaStart ≤ d ∧ d ≤ metaEnd))
  let d3 := match userStart with
    | some us => d2.filter (fun d => decide (as_first_date_model us d2 ≤ d))
    | none => d2
  match userEnd with
  | none => some d3
  | some ue => some (d3.filter (fun d => decide (d ≤ as_last_date_model ue d3)))

/-- Claim C4: at dates 1..3 with user start 2 and user end 3, the code keeps
only the dates up to the limit resolved from the user START date and returns
[2], while the claimed behaviour (limit resolved from the user end date)
returns [2, 3]: the code diverges from the claim. -/
theorem claim_C4_end_filter_resolves_from_start :
    getStatisticsDates [1, 2, 3] [] 1 3 (some 2) (some 3) = some [2] ∧
      getStatisticsDatesSpec [1, 2, 3] [] 1 3 (some 2) (some 3) = some [2, 3] ∧
      getStatisticsDates [1, 2, 3] [] 1 3 (some 2) (some 3) ≠
        getStatisticsDatesSpec [1, 2, 3] [] 1 3 (some 2) (some 3) := by
  refine ⟨by decide, by decide, by decide⟩

/-! ## Statistics aggregation (`GenericAdditionsLoader.finalise`)

Statistics values are rationals, with `Option` marking NaN entries of the
float arrays; the `count` field is an integer array (never NaN).  Python sets
are modelled as duplicate-free lists built by `sinsert`/`sunion`, so that
`len` is the list length. -/

/-- One cell of the per-date-per-variable statistics arrays: the six raw
fields stored in a partial record and in the aggregation buffer. -/
structure SEntry where
  minimum : Option ℚ
  maximum : Option ℚ
  sums : Option ℚ
  squares : Option ℚ
  count : ℤ
  has_nans : Bool
deriving DecidableEq

/-- The aggregation buffer's initial cell: float fields `np.nan`, `count`
`-1`, `has_nans` `False` (`_get_empty_stats_dict`). -/
def initEntry : SEntry := ⟨none, none, none, none, -1, false⟩

/-- One record of the temporary storage, as destructured by the loop in
`finalise`: `for _dates, (dates, missing_dates, _, stats) in items()`. -/
structure PRec (D : Type) where
  key : List D
  dates : List D
  missing_dates : List D
  unit : Nat
  stats : Option (List (List SEntry))
deriving DecidableEq

/-- Python set insertion (duplicate-free list model). -/
def sinsert {D : Type} [DecidableEq D] (x : D) (s : List D) : List D :=
  if x ∈ s then s else x :: s

/-- Python set union-update `s |= set(xs)`. -/
def sunion {D : Type} [DecidableEq D] (s : List D) (xs : List D) : List D :=
  xs.foldl (fun a x => sinsert x a) s

/-- Python `s.isdisjoint(t)`. -/
def sdisjoint {D : Type} [DecidableEq D] (s t : List D) : Bool :=
  s.all (fun x => decide (x ∉ t))

/-- `agg[k][idates, ...] = stats[k]`: write the block rows at the listed
positions of the aggregation buffer. -/
def scatterRows {α : Type} (agg : List α) (idates : List Nat) (rows : List α) :
    List α :=
  (idates.zip rows).foldl (fun a p => a.set p.1 p.2) agg

/-- The loop state of `finalise`: the `found` and `missing` sets, the
per-record boolean `mask` list, and the aggregation buffer `agg` shaped
(target dates × variables). -/
structure AggState (D : Type) where
  found : List D
  missing : List D
  mask : List Bool
  agg : List (List SEntry)
deriving DecidableEq

/-- `_get_empty_stats_dict`: the aggregation buffer, one initial cell per
(target date, variable). -/
def initAgg {D : Type} (target : List D) (nvars : Nat) : List (List SEntry) :=
  target.map (fun _ => List.replicate nvars initEntry)

/-- A Python `assert` rendered with its condition negated: error when `bad`
holds, otherwise continue. -/
def guardE (bad : Bool) (msg : String) : Except String Unit :=
  if bad then .error msg else .ok ()

/-- One iteration of the record loop in `finalise`: records with missing
dates only extend the `missing` set and push `False` on the mask; other
records must pass the shape and duplicate asserts, extend `found`, push
`True`, and scatter their rows into the buffer at the positions of their
dates in the target date list. -/
def procRec {D : Type} [DecidableEq D] (target : List D) (nvars : Nat)
    (st : AggState D) (r : PRec D) : Except String (AggState D) :=
  if !(r.missing_dates.isEmpty) then
    .ok ⟨st.found, sunion st.missing r.missing_dates, st.mask ++ [false], st.agg⟩
  else
    match r.stats with
    | none => .error "stats is not a dict"
    | some block => do
        guardE (decide (block.length ≠ r.dates.length))
          "block shape does not match the record dates"
        guardE (decide (block.length ≠ r.key.length))
          "block shape does not match the record key"
        guardE (block.any (fun row => decide (row.length ≠ nvars)))
          "block shape does not match the variables"
        guardE (!(sdisjoint st.found r.dates)) "Duplicates found"
        guardE (decide (((target.enum.filter (fun p => decide (p.2 ∈ r.dates))).map
            (fun p => p.1)).length ≠ r.dates.length))
          "idates length does not match the record dates"
        .ok ⟨sunion st.found r.dates, st.missing, st.mask ++ [true],
          scatterRows st.agg
            ((target.enum.filter (fun p => decide (p.2 ∈ r.dates))).map (fun p => p.1))
            block⟩

/-- The record loop of `finalise` over all stored records. -/
def procRecords {D : Type} [DecidableEq D] (target : List D) (nvars : Nat) :
    List (PRec D) → AggState D → Except String (AggState D)
  | [], st => .ok st
  | r :: rest, st =>
      match procRec target nvars st r with
      | .error e => .error e
      | .ok st1 => procRecords target nvars rest st1

/-- `np.nanmin` down a column of optional rationals: `none` entries (NaN) are
ignored; all-NaN gives NaN. -/
def nanminQ (xs : List (Option ℚ)) : Option ℚ :=
  match xs.filterMap id with
  | [] => none
  | v :: rest => some (rest.foldl min v)

/-- `np.nanmax` down a column of optional rationals. -/
def nanmaxQ (xs : List (Option ℚ)) : Option ℚ :=
  match xs.filterMap id with
  | [] => none
  | v :: rest => some (rest.foldl max v)

/-- `np.nansum` down a column of optional rationals: NaN entries add nothing.
-/
def nansumQ (xs : List (Option ℚ)) : ℚ :=
  (xs.filterMap id).sum

/-- Column `j` of the masked aggregation buffer. -/
def colEntries (agg2 : List (List SEntry)) (j : Nat) : List SEntry :=
  agg2.map (fun row => row.getD j initEntry)

/-- `np.nanmin(agg["minimum"], axis=0)` at variable `j`. -/
def colMinimum (agg2 : List (List SEntry)) (j : Nat) : Option ℚ :=
  nanminQ ((colEntries agg2 j).map (fun e => e.minimum))

/-- `np.nanmax(agg["maximum"], axis=0)` at variable `j`. -/
def colMaximum (agg2 : List (List SEntry)) (j : Nat) : Option ℚ :=
  nanmaxQ ((colEntries agg2 j).map (fun e => e.maximum))

/-- `np.nansum(agg["sums"], axis=0)` at variable `j`. -/
def colSums (agg2 : List (List SEntry)) (j : Nat) : ℚ :=
  nansumQ ((colEntries agg2 j).map (fun e => e.sums))

/-- `np.nansum(agg["squares"], axis=0)` at variable `j`. -/
def colSquares (agg2 : List (List SEntry)) (j : Nat) : ℚ :=
  nansumQ ((colEntries agg2 j).map (fun e => e.squares))

/-- `np.nansum(agg["count"], axis=0)` at variable `j` (an integer array). -/
def colCount (agg2 : List (List SEntry)) (j : Nat) : ℤ :=
  ((colEntries agg2 j).map (fun e => e.count)).sum

/-- `np.any(agg["has_nans"], axis=0)` at variable `j`. -/
def colHasNans (agg2 : List (List SEntry)) (j : Nat) : Bool :=
  (colEntries agg2 j).any (fun e => e.has_nans)

/-- `mean = sums / count` at variable `j`. -/
def colMean (agg2 : List (List SEntry)) (j : Nat) : ℚ :=
  colSums agg2 j / (colCount agg2 j : ℚ)

/-- `x = squares / count - mean * mean` at variable `j`. -/
def colVariance (agg2 : List (List SEntry)) (j : Nat) : ℚ :=
  colSquares agg2 j / (colCount agg2 j : ℚ) - colMean agg2 j ^ 2

/-- The aggregated summary built by `finalise`.  The float arrays are
per-variable; `stdev_sq` is the radicand handed to `np.sqrt`, so the
published standard deviation is its elementwise square root. -/
structure FSummary where
  minimum : List (Option ℚ)
  maximum : List (Option ℚ)
  mean : List ℚ
  stdev_sq : List ℚ
  sums : List ℚ
  squares : List ℚ
  count : List ℤ
  has_nans : List Bool
deriving DecidableEq

/-- The tail of `finalise` after the record loop: the coverage asserts, the
mask filter, the NaN-aware reductions, the mean/variance derivation, the
variance validation and the summary construction.  `np.seterr(all="raise")`
is active (set in `GenericDatasetHandler.__init__`), so a division by a zero
count is fatal, as is an empty reduction.  `check_variance` is not under
`src/`; modelled from the spec: variance below `-eps` is a fatal
numerical-consistency error, and surviving negatives within the tolerance
are clamped, so the radicand of the published stdev is `max(variance, 0)`. -/
def finaliseAgg {D : Type} [DecidableEq D] (target : List D) (nvars : Nat)
    (eps : ℚ) (st : AggState D) : Except String FSummary := do
  guardE (target.any (fun d => decide (d ∉ st.found) && decide (d ∉ st.missing)))
    "Statistics for date not precomputed"
  guardE (decide (target.length ≠ st.found.length + st.missing.length))
    "Not all dates found in precomputed statistics"
  guardE (!(sdisjoint st.found st.missing))
    "Duplicate dates found in precomputed statistics"
  guardE (decide (st.agg.length ≠ target.length)) "aggregation buffer shape mismatch"
  guardE (decide (st.mask.length ≠ st.agg.length)) "boolean index did not match indexed array"
  guardE (decide ((boolIndex st.agg st.mask).length ≠ target.length - st.missing.length))
    "masked aggregation buffer shape mismatch"
  guardE ((boolIndex st.agg st.mask).isEmpty && !(nvars == 0))
    "zero-size array to reduction operation"
  guardE ((List.range nvars).any (fun j => decide (colCount (boolIndex st.agg st.mask) j = 0)))
    "divide by zero encountered"
  guardE ((List.range nvars).any (fun j => decide (colVariance (boolIndex st.agg st.mask) j < -eps)))
    "negative variance"
  .ok ⟨(List.range nvars).map (fun j => colMinimum (boolIndex st.agg st.mask) j),
      (List.range nvars).map (fun j => colMaximum (boolIndex st.agg st.mask) j),
      (List.range nvars).map (fun j => colMean (boolIndex st.agg st.mask) j),
      (List.range nvars).map (fun j => max (colVariance (boolIndex st.agg st.mask) j) 0),
      (List.range nvars).map (fun j => colSums (boolIndex st.agg st.mask) j),
      (List.range nvars).map (fun j => colSquares (boolIndex st.agg st.mask) j),
      (List.range nvars).map (fun j => colCount (boolIndex st.agg st.mask) j),
      (List.range nvars).map (fun j => colHasNans (boolIndex st.agg st.mask) j)⟩

/-- `GenericAdditionsLoader.finalise`: run the record loop from the empty
sets and the freshly initialized aggregation buffer, then aggregate. -/
def finalise {D : Type} [DecidableEq D] (target : List D) (nvars : Nat)
    (records : List (PRec D)) (eps : ℚ) : Except String FSummary :=
  match procRecords target nvars records ⟨[], [], [], initAgg target nvars⟩ with
  | .error e => .error e
  | .ok st => finaliseAgg target nvars eps st

/-- The set of dates contributed by records with real statistics, as
accumulated by the loop (`found |= set(dates)` for records with no missing
dates), from a given starting set. -/
def foldFound {D : Type} [DecidableEq D] (acc : List D) (records : List (PRec D)) :
    List D :=
  records.foldl (fun a r => if r.missing_dates = [] then sunion a r.dates else a) acc

/-- The set of dates contributed by missing-only records
(`missing |= set(missing_dates)`), from a given starting set. -/
def foldMissing {D : Type} [DecidableEq D] (acc : List D) (records : List (PRec D)) :
    List D :=
  records.foldl (fun a r => if r.missing_dates = [] then a else sunion a r.missing_dates) acc

/-- The found set of a record collection. -/
def foundDates {D : Type} [DecidableEq D] (records : List (PRec D)) : List D :=
  foldFound [] records

/-- The missing set of a record collection. -/
def missingDates {D : Type} [DecidableEq D] (records : List (PRec D)) : List D :=
  foldMissing [] records

lemma getD_map_range {α : Type} {n j : Nat} (f : Nat → α) (dflt : α) (hj : j < n) :
    ((List.range n).map f).getD j dflt = f j := by
  rw [List.getD_eq_getElem?_getD]
  simp [List.getElem?_map, List.getElem?_range, hj]

lemma sdisjoint_iff {D : Type} [DecidableEq D] {s t : List D} :
    sdisjoint s t = true ↔ ∀ x ∈ s, x ∉ t := by
  simp [sdisjoint]

lemma guardE_bind_ok {α : Type} {bad : Bool} {msg : String}
    {k : Unit → Except String α} {s : α}
    (h : (guardE bad msg >>= k) = .ok s) : bad = false ∧ k () = .ok s := by
  cases bad
  · refine ⟨rfl, ?_⟩
    simpa [guardE, Bind.bind, Except.bind] using h
  · exfalso
    simp [guardE, Bind.bind, Except.bind] at h

lemma finaliseAgg_ok_inv {D : Type} [DecidableEq D] {target : List D}
    {nvars : Nat} {eps : ℚ} {st : AggState D} {s : FSummary}
    (h : finaliseAgg target nvars eps st = .ok s) :
    (∀ d ∈ target, d ∈ st.found ∨ d ∈ st.missing) ∧
      target.length = st.found.length + st.missing.length ∧
      sdisjoint st.found st.missing = true ∧
      (∀ j < nvars, colCount (boolIndex st.agg st.mask) j ≠ 0) ∧
      (∀ j < nvars, -eps ≤ colVariance (boolIndex st.agg st.mask) j) ∧
      s = ⟨(List.range nvars).map (fun j => colMinimum (boolIndex st.agg st.mask) j),
        (List.range nvars).map (fun j => colMaximum (boolIndex st.agg st.mask) j),
        (List.range nvars).map (fun j => colMean (boolIndex st.agg st.mask) j),
        (List.range nvars).map (fun j => max (colVariance (boolIndex st.agg st.mask) j) 0),
        (List.range nvars).map (fun j => colSums (boolIndex st.agg st.mask) j),
        (List.range nvars).map (fun j => colSquares (boolIndex st.agg st.mask) j),
        (List.range nvars).map (fun j => colCount (boolIndex st.agg st.mask) j),
        (List.range nvars).map (fun j => colHasNans (boolIndex st.agg st.mask) j)⟩ := by
  unfold finaliseAgg at h
  obtain ⟨h1, h⟩ := guardE_bind_ok h
  obtain ⟨h2, h⟩ := guardE_bind_ok h
  obtain ⟨h3, h⟩ := guardE_bind_ok h
  obtain ⟨h4, h⟩ := guardE_bind_ok h
  obtain ⟨h5, h⟩ := guardE_bind_ok h
  obtain ⟨h6, h⟩ := guardE_bind_ok h
  obtain ⟨h7, h⟩ := guardE_bind_ok h
  obtain ⟨h8, h⟩ := guardE_bind_ok h
  obtain ⟨h9, h⟩ := guardE_bind_ok h
  have hc1 : ∀ d ∈ target, d ∈ st.found ∨ d ∈ st.missing := by
    simp only [List.any_eq_false, Bool.and_eq_true, decide_eq_true_eq, not_and] at h1
    intro d hd
    by_cases hf : d ∈ st.found
    · exact Or.inl hf
    · exact Or.inr (not_not.mp (h1 d hd hf))
  have hc2 : target.length = st.found.length + st.missing.length := by
    have := of_decide_eq_false h2
    exact not_ne_iff.mp this
  have hc3 : sdisjoint st.found st.missing = true := by
    revert h3
    cases sdisjoint st.found st.missing <;> simp
  have hc8 : ∀ j < nvars, colCount (boolIndex st.agg st.mask) j ≠ 0 := by
    simp only [List.any_eq_false, decide_eq_true_eq, List.mem_range] at h8
    exact h8
  have hc9 : ∀ j < nvars, -eps ≤ colVariance (boolIndex st.agg st.mask) j := by
    simp only [List.any_eq_false, decide_eq_true_eq, List.mem_range] at h9
    intro j hj
    have := h9 j hj
    linarith
  injection h with h'
  exact ⟨hc1, hc2, hc3, hc8, hc9, h'.symm⟩

lemma finalise_ok_inv {D : Type} [DecidableEq D] {target : List D} {nvars : Nat}
    {records : List (PRec D)} {eps : ℚ} {s : FSummary}
    (h : finalise target nvars records eps = .ok s) :
    ∃ st, procRecords target nvars records ⟨[], [], [], initAgg target nvars⟩ = .ok st ∧
      finaliseAgg target nvars eps st = .ok s := by
  unfold finalise at h
  cases hpr : procRecords target nvars records ⟨[], [], [], initAgg target nvars⟩ with
  | error e => rw [hpr] at h; exact (Except.noConfusion h)
  | ok st => rw [hpr] at h; exact ⟨st, rfl, h⟩

lemma procRec_ok_inv {D : Type} [DecidableEq D] {target : List D} {nvars : Nat}
    {st st1 : AggState D} {r : PRec D}
    (h : procRec target nvars st r = .ok st1) :
    (r.missing_dates ≠ [] ∧ st1.found = st.found ∧
        st1.missing = sunion st.missing r.missing_dates) ∨
      (r.missing_dates = [] ∧ st1.found = sunion st.found r.dates ∧
        st1.missing = st.missing ∧ sdisjoint st.found r.dates = true) := by
  unfold procRec at h
  cases hm : r.missing_dates with
  | cons a as =>
      rw [hm] at h
      simp only [List.isEmpty_cons, Bool.not_false, if_true] at h
      injection h with h'
      refine Or.inl ⟨by simp, ?_, ?_⟩ <;> rw [← h']
  | nil =>
      rw [hm] at h
      simp only [List.isEmpty_nil, Bool.not_true, Bool.false_eq_true, if_false] at h
      cases hs : r.stats with
      | none => rw [hs] at h; exact (Except.noConfusion h)
      | some block =>
          rw [hs] at h
          obtain ⟨hb1, h⟩ := guardE_bind_ok h
          obtain ⟨hb2, h⟩ := guardE_bind_ok h
          obtain ⟨hb3, h⟩ := guardE_bind_ok h
          obtain ⟨hb4, h⟩ := guardE_bind_ok h
          obtain ⟨hb5, h⟩ := guardE_bind_ok h
          injection h with h'
          have hdisj : sdisjoint st.found r.dates = true := by
            revert hb4
            cases sdisjoint st.found r.dates <;> simp
          refine Or.inr ⟨rfl, ?_, ?_, hdisj⟩ <;> rw [← h']

lemma procRecords_sets {D : Type} [DecidableEq D] (target : List D) (nvars : Nat) :
    ∀ (records : List (PRec D)) (st st' : AggState D),
      procRecords target nvars records st = .ok st' →
      st'.found = foldFound st.found records ∧
        st'.missing = foldMissing st.missing records := by
  intro records
  induction records with
  | nil =>
      intro st st' h
      injection h with h'
      rw [← h']
      exact ⟨rfl, rfl⟩
  | cons r rest ih =>
      intro st st' h
      unfold procRecords at h
      cases hpr : procRec target nvars st r with
      | error e => rw [hpr] at h; exact (Except.noConfusion h)
      | ok st1 =>
          rw [hpr] at h
          have ihres := ih st1 st' h
          rcases procRec_ok_inv hpr with ⟨hm, hf, hmm⟩ | ⟨hm, hf, hmm, -⟩
          · constructor
            · rw [ihres.1, hf]
              simp [foldFound, hm]
            · rw [ihres.2, hmm]
              simp [foldMissing, hm]
          · constructor
            · rw [ihres.1, hf]
              simp [foldFound, hm]
            · rw [ihres.2, hmm]
              simp [foldMissing, hm]

lemma mem_sinsert {D : Type} [DecidableEq D] {x y : D} {s : List D} :
    x ∈ sinsert y s ↔ x = y ∨ x ∈ s := by
  unfold sinsert
  split
  · next hy =>
      constructor
      · exact Or.inr
      · rintro (rfl | hx)
        · exact hy
        · exact hx
  · exact List.mem_cons

lemma mem_sunion {D : Type} [DecidableEq D] {x : D} :
    ∀ {xs s : List D}, x ∈ sunion s xs ↔ x ∈ s ∨ x ∈ xs := by
  intro xs
  induction xs with
  | nil => intro s; simp [sunion]
  | cons a as ih =>
      intro s
      have hstep : sunion s (a :: as) = sunion (sinsert a s) as := rfl
      rw [hstep, ih, mem_sinsert]
      constructor
      · rintro ((rfl | hs) | has)
        · exact Or.inr (List.mem_cons_self _ _)
        · exact Or.inl hs
        · exact Or.inr (List.mem_cons_of_mem a has)
      · rintro (hs | hmem)
        · exact Or.inl (Or.inr hs)
        · rcases List.mem_cons.1 hmem with rfl | has
          · exact Or.inl (Or.inl rfl)
          · exact Or.inr has

lemma procRecords_later_disjoint {D : Type} [DecidableEq D] (target : List D)
    (nvars : Nat) :
    ∀ (records : List (PRec D)) (st st' : AggState D),
      procRecords target nvars records st = .ok st' →
      ∀ r ∈ records, r.missing_dates = [] → ∀ x ∈ st.found, x ∉ r.dates := by
  intro records
  induction records with
  | nil =>
      intro st st' h r hr
      simp at hr
  | cons r0 rest ih =>
      intro st st' h r hr hok x hx
      unfold procRecords at h
      cases hpr : procRec target nvars st r0 with
      | error e => rw [hpr] at h; exact (Except.noConfusion h)
      | ok st1 =>
          rw [hpr] at h
          rcases List.mem_cons.1 hr with rfl | hr'
          · rcases procRec_ok_inv hpr with ⟨hm, -, -⟩ | ⟨-, -, -, hdisj⟩
            · exact absurd hok hm
            · exact sdisjoint_iff.mp hdisj x hx
          · have hx1 : x ∈ st1.found := by
              rcases procRec_ok_inv hpr with ⟨-, hf, -⟩ | ⟨-, hf, -, -⟩
              · rw [hf]; exact hx
              · rw [hf]; exact mem_sunion.mpr (Or.inl hx)
            exact ih st1 st' h r hr' hok x hx1

lemma procRecords_pairwise {D : Type} [DecidableEq D] (target : List D)
    (nvars : Nat) :
    ∀ (records : List (PRec D)) (st st' : AggState D),
      procRecords target nvars records st = .ok st' →
      List.Pairwise (fun r1 r2 => r1.missing_dates = [] → r2.missing_dates = [] →
        ∀ d ∈ r1.dates, d ∉ r2.dates) records := by
  intro records
  induction records with
  | nil => intro st st' h; exact List.Pairwise.nil
  | cons r0 rest ih =>
      intro st st' h
      unfold procRecords at h
      cases hpr : procRec target nvars st r0 with
      | error e => rw [hpr] at h; exact (Except.noConfusion h)
      | ok st1 =>
          rw [hpr] at h
          refine List.Pairwise.cons ?_ (ih st1 st' h)
          intro r' hr' h0 hok' d hd
          rcases procRec_ok_inv hpr with ⟨hm, -, -⟩ | ⟨-, hf, -, -⟩
          · exact absurd h0 hm
          · have hd1 : d ∈ st1.found := by
              rw [hf]; exact mem_sunion.mpr (Or.inr hd)
            exact procRecords_later_disjoint target nvars rest st1 st' h r' hr' hok' d hd1

/-- Claim C2: if `GenericAdditionsLoader.finalise` produces a summary, then
every target date appears in exactly one of the found set (dates with real
statistics) and the missing set, the two sets are disjoint, their sizes add
up to the number of target dates, and no date is duplicated across the
statistics-bearing partial records; contrapositively, any violation is a
fatal aggregation error and no summary is produced. -/
theorem claim_C2_coverage_invariant (D : Type) [DecidableEq D] (target : List D)
    (nvars : Nat) (records : List (PRec D)) (eps : ℚ) (s : FSummary)
    (hok : finalise target nvars records eps = .ok s) :
    (∀ d ∈ target, (d ∈ foundDates records ∧ d ∉ missingDates records) ∨
        (d ∈ missingDates records ∧ d ∉ foundDates records)) ∧
      sdisjoint (foundDates records) (missingDates records) = true ∧
      target.length = (foundDates records).length + (missingDates records).length ∧
      List.Pairwise (fun r1 r2 => r1.missing_dates = [] → r2.missing_dates = [] →
        ∀ d ∈ r1.dates, d ∉ r2.dates) records := by
  obtain ⟨st, hpr, hagg⟩ := finalise_ok_inv hok
  obtain ⟨hcov, hlen, hdis, -, -, -⟩ := finaliseAgg_ok_inv hagg
  have hsets := procRecords_sets target nvars records _ st hpr
  have hfound : st.found = foundDates records := hsets.1
  have hmiss : st.missing = missingDates records := hsets.2
  rw [hfound, hmiss] at hcov hlen hdis
  refine ⟨?_, hdis, hlen, procRecords_pairwise target nvars records _ st hpr⟩
  intro d hd
  rcases hcov d hd with hdf | hdm
  · exact Or.inl ⟨hdf, sdisjoint_iff.mp hdis d hdf⟩
  · refine Or.inr ⟨hdm, fun hdf => sdisjoint_iff.mp hdis d hdf hdm⟩

/-- Records for the concrete C2 witness run: statistics for dates 0 and 2
(one variable, counts 1, values 5 and 7) and a missing-date record for
date 1. -/
def c2WitnessRecords : List (PRec Nat) :=
  [⟨[0], [0], [], 0, some [[⟨some 5, some 5, some 5, some 25, 1, false⟩]]⟩,
   ⟨[1], [], [1], 1, none⟩,
   ⟨[2], [2], [], 2, some [[⟨some 7, some 7, some 7, some 49, 1, false⟩]]⟩]

/-- The summary produced by `finalise` on the C2 witness run. -/
def c2WitnessSummary : FSummary :=
  ⟨[some 5], [some 7], [6], [1], [12], [74], [2], [false]⟩

/-- Witness for claim C2: a concrete successful aggregation over target dates
0..2 with one missing date, on which the coverage invariant holds. -/
theorem claim_C2_witness :
    finalise [0, 1, 2] 1 c2WitnessRecords (1 / 1000000) = .ok c2WitnessSummary ∧
      ((∀ d ∈ [0, 1, 2],
          (d ∈ foundDates c2WitnessRecords ∧ d ∉ missingDates c2WitnessRecords) ∨
            (d ∈ missingDates c2WitnessRecords ∧ d ∉ foundDates c2WitnessRecords)) ∧
        sdisjoint (foundDates c2WitnessRecords) (missingDates c2WitnessRecords) = true ∧
        (List.length [0, 1, 2]) =
          (foundDates c2WitnessRecords).length + (missingDates c2WitnessRecords).length ∧
        List.Pairwise (fun r1 r2 => r1.missing_dates = [] → r2.missing_dates = [] →
          ∀ d ∈ r1.dates, d ∉ r2.dates) c2WitnessRecords) := by
  have h1 : procRecords [0, 1, 2] 1 c2WitnessRecords ⟨[], [], [], initAgg [0, 1, 2] 1⟩ =
      .ok ⟨[2, 0], [1], [true, false, true],
        [[⟨some 5, some 5, some 5, some 25, 1, false⟩],
         [⟨none, none, none, none, -1, false⟩],
         [⟨some 7, some 7, some 7, some 49, 1, false⟩]]⟩ := by rfl
  have hok : finalise [0, 1, 2] 1 c2WitnessRecords (1 / 1000000) = .ok c2WitnessSummary := by
    unfold finalise
    rw [h1]
    norm_num [finaliseAgg, guardE, sdisjoint, sunion, sinsert, boolIndex, colMinimum,
      colMaximum, colMean, colVariance, colSums, colSquares, colCount, colHasNans,
      colEntries, nanminQ, nanmaxQ, nansumQ, c2WitnessSummary, Bind.bind, Except.bind,
      List.filterMap, List.foldl, min_def, max_def, List.range, List.any, List.all,
      List.zip, List.zipWith, List.filter, List.map, List.isEmpty]
  exact ⟨hok,
    claim_C2_coverage_invariant Nat [0, 1, 2] 1 c2WitnessRecords (1 / 1000000)
      c2WitnessSummary hok⟩

/-- Claim C5: if `GenericAdditionsLoader.finalise` publishes a summary, then
for every variable the summary satisfies `mean = sums / count` and
`variance = squares / count - mean^2`; the variance was validated to be at
least `-eps` elementwise (a more negative variance is a fatal error and no
summary appears), and the radicand of the published standard deviation is
`max(variance, 0)`, so the published stdev is `sqrt(max(variance, 0))`. -/
theorem claim_C5_mean_variance_stdev (D : Type) [DecidableEq D] (target : List D)
    (nvars : Nat) (records : List (PRec D)) (eps : ℚ) (s : FSummary)
    (hok : finalise target nvars records eps = .ok s) (j : Nat) (hj : j < nvars) :
    s.count.getD j 0 ≠ 0 ∧
      s.mean.getD j 0 = s.sums.getD j 0 / (s.count.getD j 0 : ℚ) ∧
      -eps ≤ s.squares.getD j 0 / (s.count.getD j 0 : ℚ) - s.mean.getD j 0 ^ 2 ∧
      s.stdev_sq.getD j 0 =
        max (s.squares.getD j 0 / (s.count.getD j 0 : ℚ) - s.mean.getD j 0 ^ 2) 0 ∧
      Real.sqrt (s.stdev_sq.getD j 0) =
        Real.sqrt (max (s.squares.getD j 0 / (s.count.getD j 0 : ℚ) - s.mean.getD j 0 ^ 2) 0) := by
  obtain ⟨st, hpr, hagg⟩ := finalise_ok_inv hok
  obtain ⟨-, -, -, hcnt, hvar, hs⟩ := finaliseAgg_ok_inv hagg
  have ecount : s.count.getD j 0 = colCount (boolIndex st.agg st.mask) j := by
    rw [hs]; exact getD_map_range _ 0 hj
  have emean : s.mean.getD j 0 = colMean (boolIndex st.agg st.mask) j := by
    rw [hs]; exact getD_map_range _ 0 hj
  have esums : s.sums.getD j 0 = colSums (boolIndex st.agg st.mask) j := by
    rw [hs]; exact getD_map_range _ 0 hj
  have esquares : s.squares.getD j 0 = colSquares (boolIndex st.agg st.mask) j := by
    rw [hs]; exact getD_map_range _ 0 hj
  have estdev : s.stdev_sq.getD j 0 =
      max (colVariance (boolIndex st.agg st.mask) j) 0 := by
    rw [hs]; exact getD_map_range _ 0 hj
  refine ⟨?_, ?_, ?_, ?_, ?_⟩
  · rw [ecount]
    exact hcnt j hj
  · rw [emean, esums, ecount]
    rfl
  · rw [esquares, ecount, emean]
    exact hvar j hj
  · rw [estdev, esquares, ecount, emean]
    rfl
  · rw [estdev, esquares, ecount, emean]
    congr 1
    push_cast [colVariance, colMean]
    ring

/-- Records for the concrete C5 witness run: two one-date records with
counts 1, values 5 and 7, so the merged mean is 6 and the variance is 1. -/
def c5WitnessRecords : List (PRec Nat) :=
  [⟨[0], [0], [], 0, some [[⟨some 5, some 5, some 5, some 25, 1, false⟩]]⟩,
   ⟨[1], [1], [], 1, some [[⟨some 7, some 7, some 7, some 49, 1, false⟩]]⟩]

/-- The summary produced by `finalise` on the C5 witness run. -/
def c5WitnessSummary : FSummary :=
  ⟨[some 5], [some 7], [6], [1], [12], [74], [2], [false]⟩

/-- Witness for claim C5: a concrete successful aggregation, at variable 0. -/
theorem claim_C5_witness :
    finalise [0, 1] 1 c5WitnessRecords (1 / 1000000000) = .ok c5WitnessSummary ∧
      (0 : Nat) < 1 ∧
      (c5WitnessSummary.count.getD 0 0 ≠ 0 ∧
        c5WitnessSummary.mean.getD 0 0 =
          c5WitnessSummary.sums.getD 0 0 / (c5WitnessSummary.count.getD 0 0 : ℚ) ∧
        -(1 / 1000000000 : ℚ) ≤
          c5WitnessSummary.squares.getD 0 0 / (c5WitnessSummary.count.getD 0 0 : ℚ) -
            c5WitnessSummary.mean.getD 0 0 ^ 2 ∧
        c5WitnessSummary.stdev_sq.getD 0 0 =
          max (c5WitnessSummary.squares.getD 0 0 / (c5WitnessSummary.count.getD 0 0 : ℚ) -
            c5WitnessSummary.mean.getD 0 0 ^ 2) 0 ∧
        Real.sqrt (c5WitnessSummary.stdev_sq.getD 0 0) =
          Real.sqrt (max (c5WitnessSummary.squares.getD 0 0 /
            (c5WitnessSummary.count.getD 0 0 : ℚ) -
            c5WitnessSummary.mean.getD 0 0 ^ 2) 0)) := by
  have h1 : procRecords [0, 1] 1 c5WitnessRecords ⟨[], [], [], initAgg [0, 1] 1⟩ =
      .ok ⟨[1, 0], [], [true, true],
        [[⟨some 5, some 5, some 5, some 25, 1, false⟩],
         [⟨some 7, some 7, some 7, some 49, 1, false⟩]]⟩ := by rfl
  have hok : finalise [0, 1] 1 c5WitnessRecords (1 / 1000000000) = .ok c5WitnessSummary := by
    unfold finalise
    rw [h1]
    norm_num [finaliseAgg, guardE, sdisjoint, sunion, sinsert, boolIndex, colMinimum,
      colMaximum, colMean, colVariance, colSums, colSquares, colCount, colHasNans,
      colEntries, nanminQ, nanmaxQ, nansumQ, c5WitnessSummary, Bind.bind, Except.bind,
      List.filterMap, List.foldl, min_def, max_def, List.range, List.any, List.all,
      List.zip, List.zipWith, List.filter, List.map, List.isEmpty]
  exact ⟨hok, by decide,
    claim_C5_mean_variance_stdev Nat [0, 1] 1 c5WitnessRecords (1 / 1000000000)
      c5WitnessSummary hok 0 (by decide)⟩
